import Mathlib

/-
Verification of the LatencyMark harness (source/tools/LatencyMarkHarness.h).

The harness class itself is embedded directly from the source. Its
collaborators (AudioSinkBase, TestHarnessBase, SynthMark.h result codes,
the C library PRNG, the host thread) are not part of the source tree, so
they are modelled from the specification, each marked with a doc comment
starting with `Modelled from the spec:`.

Machine integers (int32_t) are modelled as Int; all quantities involved
(buffer sizes in frames, voice counts, underrun counts) are far below the
int32 range in every scenario the claims quantify over, so overflow is not
modelled. The float fields (mGlitchTime, latencyMsec, the measurement) are
modelled as Rat; every value appearing in the claims is exactly
representable in both.
-/

/-- Modelled from the spec: the two outcome kinds of a run
(`SYNTHMARK_RESULT_SUCCESS` and `SYNTHMARK_RESULT_UNRECOVERABLE_ERROR`
from SynthMark.h, which is not under src/). -/
inductive ResultCode where
  | success
  | unrecoverableError
deriving DecidableEq

/-- Modelled from the spec: the audio-sink collaborator (AudioSinkBase is
not under src/). It owns the buffer size, a maximum buffer capacity, and a
monotonic underrun counter. -/
structure AudioSink where
  bufferSizeInFrames : Int
  maxBufferFrames : Int
  underrunCount : Int
deriving DecidableEq

/-- Modelled from the spec: `setBufferSizeInFrames(requested) -> actual`
"may clamp below request" when the request exceeds the sink's maximum.
Returns the actual size and the updated sink. -/
def setBufferSizeInFrames (sink : AudioSink) (requested : Int) : Int × AudioSink :=
  let actual := min requested sink.maxBufferFrames
  (actual, { sink with bufferSizeInFrames := actual })

/-- State of the LatencyMarkHarness probe relevant to the latency search:
the sink it drives, the configuration (mFramesPerBurst, mSampleRate,
owned by the excluded TestHarnessBase), the underrun baseline
mPreviousUnderrunCount, the measurement-window counters mFrameCounter and
mNoteCounter (base-class fields), and mGlitchTime. -/
structure HarnessState where
  sink : AudioSink
  framesPerBurst : Int
  sampleRate : Int
  previousUnderrunCount : Int
  frameCounter : Nat
  noteCounter : Nat
  glitchTime : Rat
deriving DecidableEq

/-- Embeds `restart()` (source lines 131-135): reset the
measurement-window clock so we get a full run without glitches. -/
def restart (s : HarnessState) : HarnessState :=
  { s with frameCounter := 0, noteCounter := 0 }

/-- Embeds `onBeginMeasurement()` (source lines 121-129): clear the
underrun baseline and pin the buffer to one burst. The log call and
setupJitterRecording are external side effects with no probe state. -/
def onBeginMeasurement (s : HarnessState) : HarnessState :=
  let s1 := { s with previousUnderrunCount := 0 }
  let sink' := (setBufferSizeInFrames s1.sink s1.framesPerBurst).2
  { s1 with sink := sink' }

/-- Embeds `onBeforeNoteOn()` (source lines 137-162). The parameter
`active` stands for the externally owned guard `mTimer.getActiveTime() > 0`
(mTimer lives in the excluded base class). On an underrun delta the
baseline is advanced, the buffer is grown by one burst through the sink;
if the sink clamps below the request the call returns the unrecoverable
error, otherwise the glitch time is recorded and the window restarts. -/
def onBeforeNoteOn (active : Bool) (s : HarnessState) : ResultCode × HarnessState :=
  if active then
    let underruns := s.sink.underrunCount
    if underruns > s.previousUnderrunCount then
      let s1 := { s with previousUnderrunCount := underruns }
      let sizeInFrames := s1.sink.bufferSizeInFrames
      let desiredSizeInFrames := sizeInFrames + s1.framesPerBurst
      let actualSize := (setBufferSizeInFrames s1.sink desiredSizeInFrames).1
      let sink' := (setBufferSizeInFrames s1.sink desiredSizeInFrames).2
      let s2 := { s1 with sink := sink' }
      if actualSize < desiredSizeInFrames then
        (ResultCode.unrecoverableError, s2)
      else
        let s3 := { s2 with glitchTime := (s2.frameCounter : Rat) / (s2.sampleRate : Rat) }
        (ResultCode.success, restart s3)
    else
      (ResultCode.success, s)
  else
    (ResultCode.success, s)

/-- Modelled from the spec: the per-note environment of one invocation of
the probe's pre-note check, driven by the excluded TestHarnessBase loop:
how many frames elapsed since the previous note, whether the timer's
active time is positive, and the sink's underrun count observed at this
note. -/
structure NoteInput where
  frameAdvance : Nat
  active : Bool
  underruns : Int
deriving DecidableEq

/-- Modelled from the spec: one per-note step of the excluded harness
loop: advance the frame and note counters, expose the sink's current
underrun count, then run the probe's `onBeforeNoteOn` check. -/
def noteStep (inp : NoteInput) (s : HarnessState) : ResultCode × HarnessState :=
  let s' := { s with
    frameCounter := s.frameCounter + inp.frameAdvance,
    noteCounter := s.noteCounter + 1,
    sink := { s.sink with underrunCount := inp.underruns } }
  onBeforeNoteOn inp.active s'

/-- State of the probe after processing a list of per-note inputs. -/
def finalState (s : HarnessState) (l : List NoteInput) : HarnessState :=
  l.foldl (fun s inp => (noteStep inp s).2) s

/-- Status codes returned by the probe along a run. -/
def runStatuses (s : HarnessState) : List NoteInput → List ResultCode
  | [] => []
  | inp :: rest => (noteStep inp s).1 :: runStatuses (noteStep inp s).2 rest

/-- A run is ok when every per-note check returned success (the sink's
maximum was never hit). -/
def RunOk (s : HarnessState) (l : List NoteInput) : Prop :=
  ∀ rc ∈ runStatuses s l, rc = ResultCode.success

/-- Number of underrun-delta events (growth events) observed along a run:
steps where the timer was active and the observed underrun count exceeded
the baseline. -/
def countGrowths (s : HarnessState) : List NoteInput → Nat
  | [] => 0
  | inp :: rest =>
      (if inp.active = true ∧ inp.underruns > s.previousUnderrunCount then 1 else 0)
      + countGrowths (noteStep inp s).2 rest

/-- The k-th step of the run observes an underrun delta. -/
def IsGrowthAt (s : HarnessState) (l : List NoteInput) (k : Nat) : Prop :=
  ∃ inp, l.get? k = some inp ∧ inp.active = true ∧
    inp.underruns > (finalState s (l.take k)).previousUnderrunCount

/-- Numeric content of the report text composed by `onEndMeasurement`
(source lines 171-178); the jitter and CPU dumps come from excluded
collaborators and carry no probe state. -/
structure LatencyReport where
  framesPerBurst : Int
  latencyBursts : Int
  latencyFrames : Int
  latencyMsec : Rat
deriving DecidableEq

/-- Modelled from the spec: the result-reporting collaborator
(SynthMarkResult, not under src/): a result status code and a single
numeric measurement. -/
structure SynthMarkResult where
  resultCode : ResultCode
  measurement : Rat
deriving DecidableEq

/-- Embeds `onEndMeasurement()` (source lines 167-183): compute the final
latency report and fill the result with the success code and the final
buffer size in frames. -/
def onEndMeasurement (s : HarnessState) : LatencyReport × SynthMarkResult :=
  let sizeFrames := s.sink.bufferSizeInFrames
  let latencyMsec : Rat := 1000 * (sizeFrames : Rat) / (s.sampleRate : Rat)
  (⟨s.framesPerBurst, sizeFrames / s.framesPerBurst, sizeFrames, latencyMsec⟩,
   ⟨ResultCode.success, (sizeFrames : Rat)⟩)

/-- Embeds `#define NOTES_PER_STEP 10` (source line 34). -/
def NOTES_PER_STEP : Nat := 10

/-- Embeds `enum VoicesMode` (source lines 36-41). -/
inductive VoicesMode where
  | VOICES_UNDEFINED
  | VOICES_SWITCH
  | VOICES_RANDOM
  | VOICES_LINEAR_LOOP
deriving DecidableEq

/-- Persistent state of the load generator across calls: the
function-local `static int32_t lastVoices` of `getCurrentNumVoices()`
(zero-initialized at process start, surviving across calls and runs), and
the position reached in the C library PRNG stream. -/
structure VoiceGenState where
  lastVoices : Int
  randIndex : Nat
deriving DecidableEq

/-- Embeds `getCurrentNumVoices()` (source lines 189-229). The C library
`rand()` (external to the source tree) is modelled as the abstract stream
`randStream` of its successive non-negative outputs after the fixed
`srand(0)` of the constructor; drawing advances `randIndex`. Because the
dividend `rand()` is always non-negative, the Euclidean `%` used here
agrees with the C truncated remainder whenever the divisor is non-zero.
`numVoices` is `getNumVoices()` (the configured low count, owned by the
excluded TestHarnessParameters) and `mNoteCounter` is `getNoteCounter()`.
The verbose printf has no state effect and is omitted. -/
def getCurrentNumVoices (randStream : Nat → Nat) (mVoicesMode : VoicesMode)
    (numVoices mNumVoicesHigh : Int) (mNoteCounter : Nat)
    (st : VoiceGenState) : Int × VoiceGenState :=
  if mNumVoicesHigh > 0 then
    let needUpdate := mNoteCounter % (NOTES_PER_STEP / 2) = 0
    if needUpdate then
      match mVoicesMode with
      | VoicesMode.VOICES_LINEAR_LOOP =>
          let lv := st.lastVoices + (NOTES_PER_STEP / 2 : Nat)
          let lv := if lv > mNumVoicesHigh ∨ lv < numVoices then numVoices else lv
          (lv, { st with lastVoices := lv })
      | VoicesMode.VOICES_RANDOM =>
          let lv := ((randStream st.randIndex : Int) % (mNumVoicesHigh - numVoices + 1))
                      + numVoices
          (lv, { lastVoices := lv, randIndex := st.randIndex + 1 })
      | _ =>
          let lv := if (mNoteCounter % NOTES_PER_STEP) < (NOTES_PER_STEP / 2)
                    then numVoices else mNumVoicesHigh
          (lv, { st with lastVoices := lv })
    else
      (st.lastVoices, st)
  else
    (numVoices, st)

/-- Value and generator state after querying the voice count at notes
0, 1, ..., n in order (the per-note loop of the excluded harness). -/
def voicesRun (rs : Nat → Nat) (mode : VoicesMode) (low high : Int)
    (st : VoiceGenState) : Nat → Int × VoiceGenState
  | 0 => getCurrentNumVoices rs mode low high 0 st
  | n + 1 => getCurrentNumVoices rs mode low high (n + 1) (voicesRun rs mode low high st n).2

/-- Voice count returned at note n when queried at every note from 0. -/
def voicesAt (rs : Nat → Nat) (mode : VoicesMode) (low high : Int)
    (st : VoiceGenState) (n : Nat) : Int :=
  (voicesRun rs mode low high st n).1

/-- Update step of the LinearLoop recurrence as the source computes it:
add half a cycle, and reset to the low count whenever the result would
exceed the high count or fall below the low count. -/
def llUpd (low high v : Int) : Int :=
  let v' := v + (NOTES_PER_STEP / 2 : Nat)
  if v' > high ∨ v' < low then low else v'

/-- Value of the LinearLoop counter after k+1 updates starting from the
zero-initialized static counter. -/
def llIter (low high : Int) : Nat → Int
  | 0 => llUpd low high 0
  | k + 1 => llUpd low high (llIter low high k)

/-- Value drawn by the Random mode from one PRNG output: the residue of
the output modulo the range width, shifted to start at the low count. -/
def randomDraw (low high : Int) (r : Nat) : Int :=
  ((r : Int) % (high - low + 1)) + low

/-- Modelled from the spec: one observable event of the glitch-monitor
task. A `poll` event is one iteration of the monitor loop (the enabled
check followed by the buffer-size read, source lines 92-103), linearized
at its read of `mMonitorEnabled`; a `stop` event is the flag write of
`stopMonitorCallback` (source line 81). Because `stopMonitorCallback`
joins the monitor thread before returning, every poll of the run is
ordered before the stop's return, so events after `stop` in a trace are
exactly the polls that could occur after stop has returned. -/
inductive MonitorEvent where
  | poll (size : Int)
  | stop
deriving DecidableEq

/-- State of the glitch monitor: the enabled flag `mMonitorEnabled`, the
loop-local `previousBufferSize`, and the sizes announced so far (the
printf calls, source lines 97-100, carry the new size). -/
structure MonitorState where
  enabled : Bool
  previousBufferSize : Int
  notices : List Int
deriving DecidableEq

/-- Embeds one event of `monitorCallback` / `stopMonitorCallback`
(source lines 79-105): a poll while enabled announces the current size
exactly when it differs from the last-seen size and updates the last-seen
value; a poll while disabled is impossible (the loop has exited) and does
nothing; stop clears the enabled flag. -/
def monitorStep (st : MonitorState) : MonitorEvent → MonitorState
  | MonitorEvent.stop => { st with enabled := false }
  | MonitorEvent.poll size =>
      if st.enabled then
        if size ≠ st.previousBufferSize then
          { st with previousBufferSize := size, notices := st.notices ++ [size] }
        else st
      else st

/-- Monitor state after a trace of events, starting from the state
`startMonitorCallback` creates: enabled, with the last-seen size read
from the sink on entry to `monitorCallback` (source line 91) and nothing
announced yet. -/
def monitorRun (initialSize : Int) (events : List MonitorEvent) : MonitorState :=
  events.foldl monitorStep ⟨true, initialSize, []⟩

/-- State produced by a successful growth step: buffer grown by one
burst, baseline advanced, window counters reset by `restart`, glitch time
recorded from the frames elapsed in the window. -/
def grownState (inp : NoteInput) (s : HarnessState) : HarnessState :=
  { sink := { bufferSizeInFrames := s.sink.bufferSizeInFrames + s.framesPerBurst,
              maxBufferFrames := s.sink.maxBufferFrames,
              underrunCount := inp.underruns },
    framesPerBurst := s.framesPerBurst,
    sampleRate := s.sampleRate,
    previousUnderrunCount := inp.underruns,
    frameCounter := 0,
    noteCounter := 0,
    glitchTime := ((s.frameCounter + inp.frameAdvance : Nat) : Rat) / (s.sampleRate : Rat) }

/-- State produced by a clamped (failed) growth step: the sink clamps the
request to its maximum, the baseline is advanced, and neither the window
counters nor the glitch time are touched. -/
def clampedState (inp : NoteInput) (s : HarnessState) : HarnessState :=
  { sink := { bufferSizeInFrames := s.sink.maxBufferFrames,
              maxBufferFrames := s.sink.maxBufferFrames,
              underrunCount := inp.underruns },
    framesPerBurst := s.framesPerBurst,
    sampleRate := s.sampleRate,
    previousUnderrunCount := inp.underruns,
    frameCounter := s.frameCounter + inp.frameAdvance,
    noteCounter := s.noteCounter + 1,
    glitchTime := s.glitchTime }

/-- State after the excluded harness loop has advanced the counters and
the sink's underrun count, before the probe's check acts. -/
def advancedState (inp : NoteInput) (s : HarnessState) : HarnessState :=
  { s with
    frameCounter := s.frameCounter + inp.frameAdvance,
    noteCounter := s.noteCounter + 1,
    sink := { s.sink with underrunCount := inp.underruns } }

instance decidableRunOk (s : HarnessState) (l : List NoteInput) : Decidable (RunOk s l) :=
  List.decidableBAll (fun rc => rc = ResultCode.success) (runStatuses s l)

/-- Concrete run for the C1 witness: burst 192, sink maximum 1920, four
notes with underrun deltas at the second and fourth note. -/
def c1State : HarnessState := ⟨⟨0, 1920, 0⟩, 192, 48000, 5, 7, 3, 0⟩

/-- Note inputs of the C1 witness run. -/
def c1Notes : List NoteInput :=
  [⟨192, true, 0⟩, ⟨192, true, 1⟩, ⟨192, true, 1⟩, ⟨192, true, 2⟩]

/-- Initial state of the C4 witness scenario: sample rate 48000, burst
192, sink maximum 1920. -/
def c4State : HarnessState := ⟨⟨0, 1920, 0⟩, 192, 48000, 0, 0, 0, 0⟩

/-- Notes of the C4 witness scenario: three glitch-free notes. -/
def c4Notes : List NoteInput := [⟨192, true, 0⟩, ⟨192, true, 0⟩, ⟨192, true, 0⟩]

/-- Case analysis of one per-note step: either no underrun delta is
observed and only the environment-owned fields move, or a delta is
observed and the step either grows the buffer by one burst and restarts
the window, or hits the sink's maximum and fails. -/
lemma noteStep_spec (inp : NoteInput) (s : HarnessState) :
    (¬(inp.active = true ∧ inp.underruns > s.previousUnderrunCount) ∧
      noteStep inp s = (ResultCode.success, advancedState inp s))
    ∨ ((inp.active = true ∧ inp.underruns > s.previousUnderrunCount) ∧
        ((s.sink.bufferSizeInFrames + s.framesPerBurst ≤ s.sink.maxBufferFrames ∧
          noteStep inp s = (ResultCode.success, grownState inp s))
        ∨ (s.sink.maxBufferFrames < s.sink.bufferSizeInFrames + s.framesPerBurst ∧
          noteStep inp s = (ResultCode.unrecoverableError, clampedState inp s)))) := by
  by_cases ha : inp.active = true
  case neg =>
    left
    refine ⟨by tauto, ?_⟩
    simp only [noteStep, onBeforeNoteOn, advancedState]
    rw [if_neg ha]
  case pos =>
    by_cases hu : inp.underruns > s.previousUnderrunCount
    case neg =>
      left
      refine ⟨by tauto, ?_⟩
      simp only [noteStep, onBeforeNoteOn, advancedState]
      rw [if_pos ha, if_neg hu]
    case pos =>
      right
      refine ⟨⟨ha, hu⟩, ?_⟩
      by_cases hm : s.sink.bufferSizeInFrames + s.framesPerBurst ≤ s.sink.maxBufferFrames
      case pos =>
        left
        refine ⟨hm, ?_⟩
        simp only [noteStep, onBeforeNoteOn, setBufferSizeInFrames, restart, grownState]
        rw [if_pos ha, if_pos hu, if_neg (by rw [min_eq_left hm]; omega)]
        simp [min_eq_left hm]
      case neg =>
        right
        refine ⟨by omega, ?_⟩
        have hm' : s.sink.maxBufferFrames ≤ s.sink.bufferSizeInFrames + s.framesPerBurst := by
          omega
        simp only [noteStep, onBeforeNoteOn, setBufferSizeInFrames, clampedState]
        rw [if_pos ha, if_pos hu, if_pos (by rw [min_eq_right hm']; omega)]
        simp [min_eq_right hm']

/-- Configuration fields (burst size, sample rate, sink maximum) are
never written by a per-note step. -/
lemma noteStep_config (inp : NoteInput) (s : HarnessState) :
    (noteStep inp s).2.framesPerBurst = s.framesPerBurst
    ∧ (noteStep inp s).2.sampleRate = s.sampleRate
    ∧ (noteStep inp s).2.sink.maxBufferFrames = s.sink.maxBufferFrames := by
  rcases noteStep_spec inp s with ⟨_, h⟩ | ⟨_, ⟨_, h⟩ | ⟨_, h⟩⟩ <;>
    rw [h] <;> simp [advancedState, grownState, clampedState]

/-- Configuration fields are unchanged along any run. -/
lemma finalState_config (l : List NoteInput) (s : HarnessState) :
    (finalState s l).framesPerBurst = s.framesPerBurst
    ∧ (finalState s l).sampleRate = s.sampleRate
    ∧ (finalState s l).sink.maxBufferFrames = s.sink.maxBufferFrames := by
  induction l generalizing s with
  | nil => exact ⟨rfl, rfl, rfl⟩
  | cons inp rest ih =>
      have h := noteStep_config inp s
      have h2 := ih (noteStep inp s).2
      simp only [finalState, List.foldl_cons] at h2 ⊢
      exact ⟨h2.1.trans h.1, h2.2.1.trans h.2.1, h2.2.2.trans h.2.2⟩

/-- Claim C10: an invocation of onBeforeNoteOn that observes no new
underrun — either because the timer's active time is not yet positive or
because the sink's underrun count does not exceed the recorded baseline —
returns the success status and leaves the whole probe state (buffer size,
underrun baseline, frame and note counters, glitch time) unchanged. -/
theorem no_underrun_frame_correct (active : Bool) (s : HarnessState)
    (h : active = false ∨ s.sink.underrunCount ≤ s.previousUnderrunCount) :
    onBeforeNoteOn active s = (ResultCode.success, s) := by
  unfold onBeforeNoteOn
  rcases h with h | h
  · subst h; rfl
  · cases active
    · rfl
    · dsimp only
      rw [if_pos rfl, if_neg (by omega)]

/-- Witness for C10 at a concrete state with the underrun count equal to
the baseline. -/
theorem no_underrun_frame_correct_witness :
    onBeforeNoteOn true ⟨⟨384, 1920, 3⟩, 192, 48000, 3, 100, 4, 0⟩
      = (ResultCode.success, ⟨⟨384, 1920, 3⟩, 192, 48000, 3, 100, 4, 0⟩) :=
  no_underrun_frame_correct true ⟨⟨384, 1920, 3⟩, 192, 48000, 3, 100, 4, 0⟩
    (Or.inr (by decide))

/-- Claim C2: when an underrun delta is observed and the sink clamps the
grow request below the requested size (current size plus one burst), the
call returns the unrecoverable-error status immediately — the error is
the call's return value, surfaced to the driving loop, not swallowed —
and no further buffer mutation occurs: under the probe's invariant that
the buffer is a burst multiple not exceeding the sink's burst-multiple
maximum, the buffer size is unchanged, and the window counters and glitch
time are untouched. -/
theorem unrecoverable_error_correct (s : HarnessState)
    (hu : s.sink.underrunCount > s.previousUnderrunCount)
    (hpos : 0 < s.framesPerBurst)
    (hdb : s.framesPerBurst ∣ s.sink.bufferSizeInFrames)
    (hdm : s.framesPerBurst ∣ s.sink.maxBufferFrames)
    (hle : s.sink.bufferSizeInFrames ≤ s.sink.maxBufferFrames)
    (hclamp : s.sink.maxBufferFrames < s.sink.bufferSizeInFrames + s.framesPerBurst) :
    (onBeforeNoteOn true s).1 = ResultCode.unrecoverableError
    ∧ (onBeforeNoteOn true s).2.sink.bufferSizeInFrames = s.sink.bufferSizeInFrames
    ∧ (onBeforeNoteOn true s).2.frameCounter = s.frameCounter
    ∧ (onBeforeNoteOn true s).2.noteCounter = s.noteCounter
    ∧ (onBeforeNoteOn true s).2.glitchTime = s.glitchTime := by
  have key : s.sink.maxBufferFrames = s.sink.bufferSizeInFrames := by
    obtain ⟨a, ha⟩ := hdb
    obtain ⟨b, hb⟩ := hdm
    have h1 : a ≤ b := by
      have h := hle
      rw [ha, hb] at h
      exact le_of_mul_le_mul_left h hpos
    have h2 : b < a + 1 := by
      have h := hclamp
      rw [ha, hb] at h
      have h3 : s.framesPerBurst * b < s.framesPerBurst * (a + 1) := by
        rw [mul_add, mul_one]; exact h
      exact lt_of_mul_lt_mul_left h3 (le_of_lt hpos)
    have hab : a = b := by omega
    rw [ha, hb, hab]
  have hmineq : min (s.sink.bufferSizeInFrames + s.framesPerBurst) s.sink.maxBufferFrames
      = s.sink.bufferSizeInFrames := by
    rw [min_eq_right (by omega), key]
  unfold onBeforeNoteOn setBufferSizeInFrames
  dsimp only
  rw [if_pos rfl, if_pos hu, if_pos (by rw [hmineq]; omega)]
  exact ⟨rfl, hmineq, rfl, rfl, rfl⟩

/-- Witness for C2 at a concrete state sitting at a burst-multiple
maximum while still glitching. -/
theorem unrecoverable_error_correct_witness :
    (onBeforeNoteOn true ⟨⟨1920, 1920, 5⟩, 192, 48000, 2, 50, 3, 7⟩).1
        = ResultCode.unrecoverableError
    ∧ (onBeforeNoteOn true ⟨⟨1920, 1920, 5⟩, 192, 48000, 2, 50, 3, 7⟩).2.sink.bufferSizeInFrames
        = 1920
    ∧ (onBeforeNoteOn true ⟨⟨1920, 1920, 5⟩, 192, 48000, 2, 50, 3, 7⟩).2.frameCounter = 50
    ∧ (onBeforeNoteOn true ⟨⟨1920, 1920, 5⟩, 192, 48000, 2, 50, 3, 7⟩).2.noteCounter = 3
    ∧ (onBeforeNoteOn true ⟨⟨1920, 1920, 5⟩, 192, 48000, 2, 50, 3, 7⟩).2.glitchTime = 7 :=
  unrecoverable_error_correct ⟨⟨1920, 1920, 5⟩, 192, 48000, 2, 50, 3, 7⟩
    (by decide) (by decide) ⟨10, by norm_num⟩ ⟨10, by norm_num⟩ (by decide) (by decide)

/-- Unfolding of RunOk on a cons cell. -/
lemma runOk_cons {s : HarnessState} {inp : NoteInput} {rest : List NoteInput} :
    RunOk s (inp :: rest) ↔
      (noteStep inp s).1 = ResultCode.success ∧ RunOk (noteStep inp s).2 rest := by
  constructor
  · intro h
    exact ⟨h _ (List.mem_cons_self _ _), fun rc hrc => h rc (List.mem_cons_of_mem _ hrc)⟩
  · rintro ⟨h1, h2⟩ rc hrc
    rcases List.mem_cons.mp hrc with h | h
    · rw [h]; exact h1
    · exact h2 rc h

/-- A prefix of an all-success run is an all-success run. -/
lemma runOk_take {s : HarnessState} {l : List NoteInput} (hok : RunOk s l) (k : Nat) :
    RunOk s (l.take k) := by
  induction l generalizing s k with
  | nil => intro rc hrc; simp only [List.take_nil] at hrc; cases hrc
  | cons inp rest ih =>
      cases k with
      | zero => intro rc hrc; cases hrc
      | succ k =>
          rw [List.take_succ_cons]
          obtain ⟨h1, h2⟩ := runOk_cons.mp hok
          exact runOk_cons.mpr ⟨h1, ih h2 k⟩

/-- Along an all-success run, the buffer ends at its starting size plus
one burst per observed underrun delta. -/
lemma run_buffer_eq : ∀ (l : List NoteInput) (s : HarnessState), RunOk s l →
    (finalState s l).sink.bufferSizeInFrames
      = s.sink.bufferSizeInFrames + s.framesPerBurst * (countGrowths s l : Int) := by
  intro l
  induction l with
  | nil => intro s _; simp [finalState, countGrowths]
  | cons inp rest ih =>
      intro s hok
      obtain ⟨h1, h2⟩ := runOk_cons.mp hok
      have hcfg := noteStep_config inp s
      have hrec := ih (noteStep inp s).2 h2
      have hfs : finalState s (inp :: rest) = finalState (noteStep inp s).2 rest := rfl
      have hcg : countGrowths s (inp :: rest)
          = (if inp.active = true ∧ inp.underruns > s.previousUnderrunCount then 1 else 0)
            + countGrowths (noteStep inp s).2 rest := rfl
      rcases noteStep_spec inp s with ⟨hng, heq⟩ | ⟨hg, ⟨hm, heq⟩ | ⟨hm, heq⟩⟩
      · rw [hfs, hrec, hcg, if_neg hng, heq]
        simp only [advancedState]
        push_cast
        ring
      · rw [hfs, hrec, hcg, if_pos hg, heq]
        simp only [grownState]
        push_cast
        ring
      · rw [heq] at h1
        cases h1

/-- Along an all-success run, every step that observes an underrun delta
leaves the window counters at zero (the effect of `restart`). -/
lemma run_growth_counters : ∀ (l : List NoteInput) (s : HarnessState) (k : Nat),
    RunOk s l → IsGrowthAt s l k →
    (finalState s (l.take (k + 1))).frameCounter = 0
    ∧ (finalState s (l.take (k + 1))).noteCounter = 0 := by
  intro l
  induction l with
  | nil =>
      intro s k _ hg
      rcases hg with ⟨inp, hget, _⟩
      simp at hget
  | cons inp rest ih =>
      intro s k hok hg
      obtain ⟨h1, h2⟩ := runOk_cons.mp hok
      cases k with
      | zero =>
          rcases hg with ⟨inp', hget, ha, hu⟩
          rw [List.get?_cons_zero] at hget
          obtain rfl : inp = inp' := Option.some.inj hget
          have hu' : inp.underruns > s.previousUnderrunCount := by
            simpa [finalState] using hu
          rcases noteStep_spec inp s with ⟨hng, _⟩ | ⟨_, ⟨_, heq⟩ | ⟨_, heq⟩⟩
          · exact absurd ⟨ha, hu'⟩ hng
          · have : finalState s ((inp :: rest).take 1) = (noteStep inp s).2 := rfl
            rw [this, heq]
            exact ⟨rfl, rfl⟩
          · rw [heq] at h1
            cases h1
      | succ k =>
          rcases hg with ⟨inp', hget, ha, hu⟩
          have hg' : IsGrowthAt (noteStep inp s).2 rest k := by
            refine ⟨inp', by simpa using hget, ha, ?_⟩
            simpa [List.take_succ_cons, finalState] using hu
          have hres := ih (noteStep inp s).2 k h2 hg'
          simpa [List.take_succ_cons, finalState] using hres

/-- Claim C1: starting from onBeginMeasurement (which pins the buffer to
one burst), along any run in which every pre-note check succeeds (the
sink's maximum is never reached), after any prefix containing N observed
underrun deltas the buffer size equals one burst plus N times
framesPerBurst — in particular this holds right after the N-th growth —
and every underrun-delta step leaves the window's frame and note counters
reset to zero by `restart`. -/
theorem growth_sequence_correct (s0 : HarnessState) (l : List NoteInput)
    (hmax : s0.framesPerBurst ≤ s0.sink.maxBufferFrames)
    (hok : RunOk (onBeginMeasurement s0) l) :
    (∀ k : Nat,
      (finalState (onBeginMeasurement s0) (l.take k)).sink.bufferSizeInFrames
        = s0.framesPerBurst
          + (countGrowths (onBeginMeasurement s0) (l.take k) : Int) * s0.framesPerBurst)
    ∧ (∀ k : Nat, IsGrowthAt (onBeginMeasurement s0) l k →
        (finalState (onBeginMeasurement s0) (l.take (k + 1))).frameCounter = 0
        ∧ (finalState (onBeginMeasurement s0) (l.take (k + 1))).noteCounter = 0) := by
  have hbegin : (onBeginMeasurement s0).sink.bufferSizeInFrames = s0.framesPerBurst := by
    simp [onBeginMeasurement, setBufferSizeInFrames, min_eq_left hmax]
  have hburst : (onBeginMeasurement s0).framesPerBurst = s0.framesPerBurst := rfl
  constructor
  · intro k
    have h := run_buffer_eq (l.take k) (onBeginMeasurement s0) (runOk_take hok k)
    rw [h, hbegin, hburst]
    ring
  · intro k hg
    exact run_growth_counters l (onBeginMeasurement s0) k hok hg

/-- Witness for C1: on the concrete run, the buffer after the full prefix
equals one burst plus one burst per growth, and the growth at step 1
leaves the counters at zero. -/
theorem growth_sequence_correct_witness :
    (finalState (onBeginMeasurement c1State) (c1Notes.take 4)).sink.bufferSizeInFrames
      = 192 + (countGrowths (onBeginMeasurement c1State) (c1Notes.take 4) : Int) * 192
    ∧ (finalState (onBeginMeasurement c1State) (c1Notes.take 2)).frameCounter = 0
    ∧ (finalState (onBeginMeasurement c1State) (c1Notes.take 2)).noteCounter = 0 := by
  have h := growth_sequence_correct c1State c1Notes (by decide) (by decide)
  have hg : IsGrowthAt (onBeginMeasurement c1State) c1Notes 1 :=
    ⟨⟨192, true, 1⟩, rfl, rfl, by decide⟩
  exact ⟨h.1 4, (h.2 1 hg).1, (h.2 1 hg).2⟩

/-- One per-note step never shrinks the buffer and never pushes it past
the sink's maximum, whatever the step's outcome. -/
lemma noteStep_buffer_bounds (inp : NoteInput) (s : HarnessState)
    (hb : 0 ≤ s.framesPerBurst)
    (hle : s.sink.bufferSizeInFrames ≤ s.sink.maxBufferFrames) :
    s.sink.bufferSizeInFrames ≤ (noteStep inp s).2.sink.bufferSizeInFrames
    ∧ (noteStep inp s).2.sink.bufferSizeInFrames ≤ s.sink.maxBufferFrames := by
  rcases noteStep_spec inp s with ⟨_, heq⟩ | ⟨_, ⟨hm, heq⟩ | ⟨hm, heq⟩⟩ <;> rw [heq] <;>
    simp only [advancedState, grownState, clampedState] <;> constructor <;> omega

/-- The buffer stays within the sink's maximum along any run. -/
lemma run_buffer_le_max : ∀ (l : List NoteInput) (s : HarnessState),
    0 ≤ s.framesPerBurst → s.sink.bufferSizeInFrames ≤ s.sink.maxBufferFrames →
    (finalState s l).sink.bufferSizeInFrames ≤ s.sink.maxBufferFrames := by
  intro l
  induction l with
  | nil => intro s _ hle; exact hle
  | cons inp rest ih =>
      intro s hb hle
      have hcfg := noteStep_config inp s
      have hstep := noteStep_buffer_bounds inp s hb hle
      have := ih (noteStep inp s).2 (by rw [hcfg.1]; exact hb) (by rw [hcfg.2.2]; exact hstep.2)
      rw [hcfg.2.2] at this
      exact this

/-- Splitting a run at an append boundary. -/
lemma finalState_append (s : HarnessState) (a b : List NoteInput) :
    finalState s (a ++ b) = finalState (finalState s a) b := by
  simp [finalState, List.foldl_append]

/-- Claim C3: for a latency search started by onBeginMeasurement, the
buffer size is non-decreasing from each probe operation to the next and
never exceeds the sink's maximum buffer size, including across failed
(clamped) growth attempts. -/
theorem buffer_monotone_bounded (s0 : HarnessState) (l : List NoteInput)
    (hb : 0 ≤ s0.framesPerBurst) :
    ∀ k : Nat,
      (finalState (onBeginMeasurement s0) (l.take k)).sink.bufferSizeInFrames
        ≤ (finalState (onBeginMeasurement s0) (l.take (k + 1))).sink.bufferSizeInFrames
      ∧ (finalState (onBeginMeasurement s0) (l.take k)).sink.bufferSizeInFrames
        ≤ s0.sink.maxBufferFrames := by
  have hle1 : (onBeginMeasurement s0).sink.bufferSizeInFrames
      ≤ (onBeginMeasurement s0).sink.maxBufferFrames := by
    simp only [onBeginMeasurement, setBufferSizeInFrames]
    exact min_le_right _ _
  intro k
  have hcfg := finalState_config (l.take k) (onBeginMeasurement s0)
  have hbound := run_buffer_le_max (l.take k) (onBeginMeasurement s0) hb hle1
  refine ⟨?_, hbound⟩
  cases hget : l.get? k with
  | none =>
      rw [List.get?_eq_getElem?] at hget
      have htake : l.take (k + 1) = l.take k := by
        rw [List.take_succ, hget]
        simp
      rw [htake]
  | some inp =>
      rw [List.get?_eq_getElem?] at hget
      have htake : l.take (k + 1) = l.take k ++ [inp] := by
        rw [List.take_succ, hget]
        rfl
      rw [htake, finalState_append]
      have hstep := noteStep_buffer_bounds inp (finalState (onBeginMeasurement s0) (l.take k))
        (by rw [hcfg.1]; exact hb) (by rw [hcfg.2.2]; exact hbound)
      exact hstep.1

/-- Witness for C3 on the concrete C1 run: the buffer does not decrease
from the first to the second note and stays within the sink maximum. -/
theorem buffer_monotone_bounded_witness :
    (finalState (onBeginMeasurement c1State) (c1Notes.take 1)).sink.bufferSizeInFrames
      ≤ (finalState (onBeginMeasurement c1State) (c1Notes.take 2)).sink.bufferSizeInFrames
    ∧ (finalState (onBeginMeasurement c1State) (c1Notes.take 1)).sink.bufferSizeInFrames
      ≤ (1920 : Int) :=
  buffer_monotone_bounded c1State c1Notes (by decide) 1

/-- A run in which no note ever reports a positive underrun count leaves
the buffer size and the zero underrun baseline unchanged. -/
lemma run_no_underrun : ∀ (l : List NoteInput) (s : HarnessState),
    (∀ inp ∈ l, inp.underruns ≤ 0) → s.previousUnderrunCount = 0 →
    (finalState s l).sink.bufferSizeInFrames = s.sink.bufferSizeInFrames
    ∧ (finalState s l).previousUnderrunCount = 0 := by
  intro l
  induction l with
  | nil => intro s _ hprev; exact ⟨rfl, hprev⟩
  | cons inp rest ih =>
      intro s hno hprev
      have hinp : inp.underruns ≤ 0 := hno inp (List.mem_cons_self _ _)
      rcases noteStep_spec inp s with ⟨_, heq⟩ | ⟨⟨_, hu⟩, _⟩
      · have hfs : finalState s (inp :: rest) = finalState (noteStep inp s).2 rest := rfl
        have := ih (noteStep inp s).2 (fun i hi => hno i (List.mem_cons_of_mem _ hi))
          (by rw [heq]; simpa [advancedState] using hprev)
        rw [hfs, heq] at *
        exact ⟨this.1.trans (by simp [advancedState]), this.2⟩
      · omega

/-- Claim C4: every run that reaches onEndMeasurement — with or without
underrun growths along the way — reports the success status, a
measurement equal to the final buffer size in frames, and a latency of
1000 times the buffer size divided by the sample rate milliseconds; and
in particular a run with no underruns (whose one burst fits the sink)
keeps the buffer at exactly the one burst set by onBeginMeasurement. -/
theorem latency_report_correct (s0 : HarnessState) (l : List NoteInput) :
    (onEndMeasurement (finalState (onBeginMeasurement s0) l)).2.resultCode = ResultCode.success
    ∧ (onEndMeasurement (finalState (onBeginMeasurement s0) l)).2.measurement
        = ((finalState (onBeginMeasurement s0) l).sink.bufferSizeInFrames : Rat)
    ∧ (onEndMeasurement (finalState (onBeginMeasurement s0) l)).1.latencyMsec
        = 1000 * ((finalState (onBeginMeasurement s0) l).sink.bufferSizeInFrames : Rat)
            / (s0.sampleRate : Rat)
    ∧ ((∀ inp ∈ l, inp.underruns ≤ 0) → s0.framesPerBurst ≤ s0.sink.maxBufferFrames →
        (finalState (onBeginMeasurement s0) l).sink.bufferSizeInFrames
          = s0.framesPerBurst) := by
  have hcfg := finalState_config l (onBeginMeasurement s0)
  have hsr : (onBeginMeasurement s0).sampleRate = s0.sampleRate := rfl
  refine ⟨rfl, rfl, ?_, ?_⟩
  · show 1000 * ((finalState (onBeginMeasurement s0) l).sink.bufferSizeInFrames : Rat)
        / ((finalState (onBeginMeasurement s0) l).sampleRate : Rat) = _
    rw [hcfg.2.1, hsr]
  · intro hno hmax
    have hbuf := run_no_underrun l (onBeginMeasurement s0) hno rfl
    rw [hbuf.1]
    simp [onBeginMeasurement, setBufferSizeInFrames, min_eq_left hmax]

/-- Witness for C4: with sampleRate 48000 and framesPerBurst 192 and no
underruns, the result is success with measurement 192 frames and a
reported latency of 4 milliseconds. -/
theorem latency_report_correct_witness :
    (onEndMeasurement (finalState (onBeginMeasurement c4State) c4Notes)).2.resultCode
        = ResultCode.success
    ∧ (onEndMeasurement (finalState (onBeginMeasurement c4State) c4Notes)).2.measurement
        = (192 : Rat)
    ∧ (onEndMeasurement (finalState (onBeginMeasurement c4State) c4Notes)).1.latencyMsec
        = (4 : Rat) := by
  have h := latency_report_correct c4State c4Notes
  have hb192 : (finalState (onBeginMeasurement c4State) c4Notes).sink.bufferSizeInFrames
      = (192 : Int) := h.2.2.2 (by decide) (by decide)
  refine ⟨h.1, ?_, ?_⟩
  · rw [h.2.1, hb192]
    norm_num
  · rw [h.2.2.1, hb192]
    show (1000 : Rat) * ((192 : Int) : Rat) / ((48000 : Int) : Rat) = 4
    norm_num

/-- Unfolding of getCurrentNumVoices when the high voice count is not
positive: the low count is returned and nothing is updated. -/
lemma gcnv_highUnset (rs : Nat → Nat) (mode : VoicesMode) (low high : Int)
    (n : Nat) (st : VoiceGenState) (hh : ¬ high > 0) :
    getCurrentNumVoices rs mode low high n st = (low, st) := by
  unfold getCurrentNumVoices
  rw [if_neg hh]

/-- Unfolding of getCurrentNumVoices between update boundaries: the
previously computed count is returned unchanged. -/
lemma gcnv_noUpdate (rs : Nat → Nat) (mode : VoicesMode) (low high : Int)
    (n : Nat) (st : VoiceGenState) (hh : high > 0)
    (h5 : ¬ n % (NOTES_PER_STEP / 2) = 0) :
    getCurrentNumVoices rs mode low high n st = (st.lastVoices, st) := by
  unfold getCurrentNumVoices
  dsimp only
  rw [if_pos hh, if_neg h5]

/-- Unfolding of getCurrentNumVoices at an update boundary in Switch
mode: the half-cycle of the note index selects low or high. -/
lemma gcnv_update_switch (rs : Nat → Nat) (low high : Int)
    (n : Nat) (st : VoiceGenState) (hh : high > 0)
    (h5 : n % (NOTES_PER_STEP / 2) = 0) :
    getCurrentNumVoices rs VoicesMode.VOICES_SWITCH low high n st
      = (if n % NOTES_PER_STEP < NOTES_PER_STEP / 2 then low else high,
         { st with lastVoices := if n % NOTES_PER_STEP < NOTES_PER_STEP / 2
                                 then low else high }) := by
  unfold getCurrentNumVoices
  dsimp only
  rw [if_pos hh, if_pos h5]

/-- Unfolding of getCurrentNumVoices at an update boundary in undefined
mode (the default arm of the source switch, same as Switch). -/
lemma gcnv_update_undefined (rs : Nat → Nat) (low high : Int)
    (n : Nat) (st : VoiceGenState) (hh : high > 0)
    (h5 : n % (NOTES_PER_STEP / 2) = 0) :
    getCurrentNumVoices rs VoicesMode.VOICES_UNDEFINED low high n st
      = (if n % NOTES_PER_STEP < NOTES_PER_STEP / 2 then low else high,
         { st with lastVoices := if n % NOTES_PER_STEP < NOTES_PER_STEP / 2
                                 then low else high }) := by
  unfold getCurrentNumVoices
  dsimp only
  rw [if_pos hh, if_pos h5]

/-- Unfolding of getCurrentNumVoices at an update boundary in LinearLoop
mode: apply the increment-and-wrap update to the stored counter. -/
lemma gcnv_update_linear (rs : Nat → Nat) (low high : Int)
    (n : Nat) (st : VoiceGenState) (hh : high > 0)
    (h5 : n % (NOTES_PER_STEP / 2) = 0) :
    getCurrentNumVoices rs VoicesMode.VOICES_LINEAR_LOOP low high n st
      = (llUpd low high st.lastVoices,
         { st with lastVoices := llUpd low high st.lastVoices }) := by
  unfold getCurrentNumVoices llUpd
  dsimp only
  rw [if_pos hh, if_pos h5]

/-- Unfolding of getCurrentNumVoices at an update boundary in Random
mode: draw the next PRNG output and advance the stream position. -/
lemma gcnv_update_random (rs : Nat → Nat) (low high : Int)
    (n : Nat) (st : VoiceGenState) (hh : high > 0)
    (h5 : n % (NOTES_PER_STEP / 2) = 0) :
    getCurrentNumVoices rs VoicesMode.VOICES_RANDOM low high n st
      = (randomDraw low high (rs st.randIndex),
         ⟨randomDraw low high (rs st.randIndex), st.randIndex + 1⟩) := by
  unfold getCurrentNumVoices randomDraw
  dsimp only
  rw [if_pos hh, if_pos h5]

/-- Invariant of the Switch mode when queried at every note from 0: both
the returned value and the stored counter follow the half-cycle of the
note index, regardless of the stale static value the generator started
with. -/
lemma switch_invariant (rs : Nat → Nat) (low high : Int) (st : VoiceGenState)
    (hh : 0 < high) :
    ∀ n : Nat,
      (voicesRun rs VoicesMode.VOICES_SWITCH low high st n).1
          = (if n % 10 < 5 then low else high)
      ∧ (voicesRun rs VoicesMode.VOICES_SWITCH low high st n).2.lastVoices
          = (if n % 10 < 5 then low else high) := by
  intro n
  induction n with
  | zero =>
      rw [show voicesRun rs VoicesMode.VOICES_SWITCH low high st 0
            = getCurrentNumVoices rs VoicesMode.VOICES_SWITCH low high 0 st from rfl,
          gcnv_update_switch rs low high 0 st hh (by decide)]
      constructor <;> norm_num [NOTES_PER_STEP]
  | succ n ih =>
      have hstep : voicesRun rs VoicesMode.VOICES_SWITCH low high st (n + 1)
          = getCurrentNumVoices rs VoicesMode.VOICES_SWITCH low high (n + 1)
              (voicesRun rs VoicesMode.VOICES_SWITCH low high st n).2 := rfl
      by_cases h5 : (n + 1) % 5 = 0
      · rw [hstep, gcnv_update_switch rs low high (n + 1) _ hh
            (show (n + 1) % (NOTES_PER_STEP / 2) = 0 from h5)]
        constructor <;> norm_num [NOTES_PER_STEP]
      · rw [hstep, gcnv_noUpdate rs _ low high (n + 1) _ hh
            (show ¬ (n + 1) % (NOTES_PER_STEP / 2) = 0 from h5)]
        refine ⟨?_, ?_⟩ <;>
          · dsimp only
            rw [ih.2]
            exact if_congr (by omega) rfl rfl

/-- Claim C5: in Switch mode with a configured high voice count, the
value returned at note n is the low count when n mod 10 is in 0..4 and
the high count when n mod 10 is in 5..9, for every cycle and for every
initial (stale) generator state — the pattern is a function of the note
index alone, so it restarts identically at the start of every run. -/
theorem switch_pattern_correct (rs : Nat → Nat) (low high : Int) (st : VoiceGenState)
    (hh : 0 < high) (n : Nat) :
    voicesAt rs VoicesMode.VOICES_SWITCH low high st n
      = if n % 10 < 5 then low else high :=
  (switch_invariant rs low high st hh n).1

/-- Witness for C5 with low 3 and high 7 at note 7 of a run whose
generator starts from a stale counter. -/
theorem switch_pattern_correct_witness :
    voicesAt (fun _ => 0) VoicesMode.VOICES_SWITCH 3 7 ⟨9, 0⟩ 7 = 7 := by
  have h := switch_pattern_correct (fun _ => 0) 3 7 ⟨9, 0⟩ (by decide) 7
  simpa using h

/-- Counterexample to C6 as stated: with low 1 and high 10, from the
zero-initialized static counter the very first returned value is
0 + step/2 = 5 (within range, so not reset), not the low count 1 — the
sequence does not start at the low voice count. -/
theorem linear_loop_start_counterexample :
    voicesAt (fun _ => 0) VoicesMode.VOICES_LINEAR_LOOP 1 10 ⟨0, 0⟩ 0 = 5
    ∧ (5 : Int) ≠ 1 := by decide

/-- Invariant of the LinearLoop mode queried at every note from 0
starting from the zero-initialized static counter: the value at note n is
the (n/5 + 1)-th iterate of the increment-and-wrap update from 0. -/
lemma linear_loop_invariant (rs : Nat → Nat) (low high : Int) (ri : Nat)
    (hh : 0 < high) :
    ∀ n : Nat,
      (voicesRun rs VoicesMode.VOICES_LINEAR_LOOP low high ⟨0, ri⟩ n).1
          = llIter low high (n / 5)
      ∧ (voicesRun rs VoicesMode.VOICES_LINEAR_LOOP low high ⟨0, ri⟩ n).2.lastVoices
          = llIter low high (n / 5) := by
  intro n
  induction n with
  | zero =>
      rw [show voicesRun rs VoicesMode.VOICES_LINEAR_LOOP low high ⟨0, ri⟩ 0
            = getCurrentNumVoices rs VoicesMode.VOICES_LINEAR_LOOP low high 0 ⟨0, ri⟩ from rfl,
          gcnv_update_linear rs low high 0 ⟨0, ri⟩ hh (by decide)]
      exact ⟨rfl, rfl⟩
  | succ n ih =>
      have hstep : voicesRun rs VoicesMode.VOICES_LINEAR_LOOP low high ⟨0, ri⟩ (n + 1)
          = getCurrentNumVoices rs VoicesMode.VOICES_LINEAR_LOOP low high (n + 1)
              (voicesRun rs VoicesMode.VOICES_LINEAR_LOOP low high ⟨0, ri⟩ n).2 := rfl
      by_cases h5 : (n + 1) % 5 = 0
      · have hdiv : (n + 1) / 5 = n / 5 + 1 := by omega
        rw [hstep, gcnv_update_linear rs low high (n + 1) _ hh
            (show (n + 1) % (NOTES_PER_STEP / 2) = 0 from h5), hdiv]
        refine ⟨?_, ?_⟩ <;>
          · dsimp only
            rw [ih.2]
            rfl
      · have hdiv : (n + 1) / 5 = n / 5 := by omega
        rw [hstep, gcnv_noUpdate rs _ low high (n + 1) _ hh
            (show ¬ (n + 1) % (NOTES_PER_STEP / 2) = 0 from h5), hdiv]
        exact ⟨ih.2, ih.2⟩

/-- Claim C6 as amended: in LinearLoop mode with a configured high count,
querying every note from 0, the value at note n equals the (n/5 + 1)-th
iterate of the update that adds step/2 = 5 and wraps to the low count
whenever the result would exceed the high count or fall below the low
count, starting from the zero-initialized persistent counter (so the
first value is step/2 when that lies within the range, not the low
count); between update boundaries the value is unchanged. -/
theorem linear_loop_ramp (rs : Nat → Nat) (low high : Int) (ri : Nat)
    (hh : 0 < high) (n : Nat) :
    voicesAt rs VoicesMode.VOICES_LINEAR_LOOP low high ⟨0, ri⟩ n
      = llIter low high (n / 5) :=
  (linear_loop_invariant rs low high ri hh n).1

/-- Witness for the amended C6: with low 1 and high 10, note 7 sits in
the second update window and returns the second iterate, 10. -/
theorem linear_loop_ramp_witness :
    voicesAt (fun _ => 0) VoicesMode.VOICES_LINEAR_LOOP 1 10 ⟨0, 0⟩ 7 = llIter 1 10 1
    ∧ llIter 1 10 1 = 10 := by
  have h := linear_loop_ramp (fun _ => 0) 1 10 0 (by decide) 7
  exact ⟨h, by decide⟩

/-- Counterexample to C7 as stated: with low 2 and a high count of 1 —
positive but not strictly above low, hence "unset" per the claim — the
Switch pattern still modulates: note 5 returns the high count 1, not the
low count 2. -/
theorem high_unset_counterexample :
    voicesAt (fun _ => 0) VoicesMode.VOICES_SWITCH 2 1 ⟨0, 0⟩ 5 = 1 ∧ (1 : Int) ≠ 2 := by
  decide

/-- Degenerate Random draw: when the range is a single value the draw is
that value, whatever the PRNG output. -/
lemma randomDraw_self (low : Int) (r : Nat) : randomDraw low low r = low := by
  unfold randomDraw
  have h : low - low + 1 = (1 : Int) := by ring
  rw [h, Int.emod_one, zero_add]

/-- Degenerate LinearLoop update: when the range is a single value the
update always lands on that value. -/
lemma llUpd_self (low v : Int) : llUpd low low v = low := by
  unfold llUpd
  dsimp only
  by_cases h : v + ((NOTES_PER_STEP / 2 : Nat) : Int) > low
      ∨ v + ((NOTES_PER_STEP / 2 : Nat) : Int) < low
  · rw [if_pos h]
  · rw [if_neg h]
    push_neg at h
    exact le_antisymm h.1 h.2

/-- Invariant: with a single-point voice range the generator returns the
low count at every note, in every mode, from any initial state. -/
lemma voices_low_invariant (rs : Nat → Nat) (mode : VoicesMode) (low : Int)
    (st : VoiceGenState) (hp : 0 < low) :
    ∀ n : Nat,
      (voicesRun rs mode low low st n).1 = low
      ∧ (voicesRun rs mode low low st n).2.lastVoices = low := by
  intro n
  induction n with
  | zero =>
      rw [show voicesRun rs mode low low st 0
            = getCurrentNumVoices rs mode low low 0 st from rfl]
      cases mode
      case VOICES_UNDEFINED =>
        rw [gcnv_update_undefined rs low low 0 st hp (by decide)]
        constructor <;> simp
      case VOICES_SWITCH =>
        rw [gcnv_update_switch rs low low 0 st hp (by decide)]
        constructor <;> simp
      case VOICES_RANDOM =>
        rw [gcnv_update_random rs low low 0 st hp (by decide)]
        exact ⟨randomDraw_self _ _, randomDraw_self _ _⟩
      case VOICES_LINEAR_LOOP =>
        rw [gcnv_update_linear rs low low 0 st hp (by decide)]
        exact ⟨llUpd_self _ _, llUpd_self _ _⟩
  | succ n ih =>
      have hstep : voicesRun rs mode low low st (n + 1)
          = getCurrentNumVoices rs mode low low (n + 1)
              (voicesRun rs mode low low st n).2 := rfl
      by_cases h5 : (n + 1) % 5 = 0
      · cases mode
        · rw [hstep, gcnv_update_undefined rs low low (n + 1) _ hp
              (show (n + 1) % (NOTES_PER_STEP / 2) = 0 from h5)]
          constructor <;> simp
        · rw [hstep, gcnv_update_switch rs low low (n + 1) _ hp
              (show (n + 1) % (NOTES_PER_STEP / 2) = 0 from h5)]
          constructor <;> simp
        · rw [hstep, gcnv_update_random rs low low (n + 1) _ hp
              (show (n + 1) % (NOTES_PER_STEP / 2) = 0 from h5)]
          exact ⟨randomDraw_self _ _, randomDraw_self _ _⟩
        · rw [hstep, gcnv_update_linear rs low low (n + 1) _ hp
              (show (n + 1) % (NOTES_PER_STEP / 2) = 0 from h5)]
          exact ⟨llUpd_self _ _, llUpd_self _ _⟩
      · rw [hstep, gcnv_noUpdate rs mode low low (n + 1) _ hp
            (show ¬ (n + 1) % (NOTES_PER_STEP / 2) = 0 from h5)]
        exact ⟨ih.2, ih.2⟩

/-- Claim C7 as amended: the generator is constant at the low count, in
every mode, at every note and from any initial state, exactly when the
high count is not positive (the source's only "unset" test is
mNumVoicesHigh > 0) or when the high count equals the low count; a
positive high count strictly below the low count still modulates. -/
theorem voices_constant_when_high_unset (rs : Nat → Nat) (mode : VoicesMode)
    (low high : Int) (st : VoiceGenState)
    (h : ¬ 0 < high ∨ high = low) (n : Nat) :
    voicesAt rs mode low high st n = low := by
  by_cases hp : 0 < high
  case neg =>
    cases n with
    | zero =>
        show (getCurrentNumVoices rs mode low high 0 st).1 = low
        rw [gcnv_highUnset rs mode low high 0 st hp]
    | succ n =>
        show (getCurrentNumVoices rs mode low high (n + 1)
          (voicesRun rs mode low high st n).2).1 = low
        rw [gcnv_highUnset rs mode low high (n + 1) _ hp]
  case pos =>
    rcases h with h | h
    · exact absurd hp h
    · rw [h] at hp ⊢
      exact (voices_low_invariant rs mode low st hp n).1

/-- Witness for the amended C7: a single-point range in Random mode with
a stale generator state still returns the low count. -/
theorem voices_constant_when_high_unset_witness :
    voicesAt (fun k => k + 3) VoicesMode.VOICES_RANDOM 4 4 ⟨11, 2⟩ 6 = 4 :=
  voices_constant_when_high_unset (fun k => k + 3) VoicesMode.VOICES_RANDOM 4 4 ⟨11, 2⟩
    (Or.inr rfl) 6

/-- Invariant of the Random mode queried at every note from 0, starting
at PRNG position 0 (the constructor's fixed srand(0)): the value at note
n is the draw from the (n/5)-th PRNG output, one output is consumed per
update boundary, and the stale static counter is irrelevant from note 0
on. -/
lemma random_invariant (rs : Nat → Nat) (low high : Int) (L : Int) (hh : 0 < high) :
    ∀ n : Nat,
      (voicesRun rs VoicesMode.VOICES_RANDOM low high ⟨L, 0⟩ n).1
          = randomDraw low high (rs (n / 5))
      ∧ (voicesRun rs VoicesMode.VOICES_RANDOM low high ⟨L, 0⟩ n).2.lastVoices
          = randomDraw low high (rs (n / 5))
      ∧ (voicesRun rs VoicesMode.VOICES_RANDOM low high ⟨L, 0⟩ n).2.randIndex
          = n / 5 + 1 := by
  intro n
  induction n with
  | zero =>
      rw [show voicesRun rs VoicesMode.VOICES_RANDOM low high ⟨L, 0⟩ 0
            = getCurrentNumVoices rs VoicesMode.VOICES_RANDOM low high 0 ⟨L, 0⟩ from rfl,
          gcnv_update_random rs low high 0 ⟨L, 0⟩ hh (by decide)]
      exact ⟨rfl, rfl, rfl⟩
  | succ n ih =>
      have hstep : voicesRun rs VoicesMode.VOICES_RANDOM low high ⟨L, 0⟩ (n + 1)
          = getCurrentNumVoices rs VoicesMode.VOICES_RANDOM low high (n + 1)
              (voicesRun rs VoicesMode.VOICES_RANDOM low high ⟨L, 0⟩ n).2 := rfl
      by_cases h5 : (n + 1) % 5 = 0
      · have hdiv : (n + 1) / 5 = n / 5 + 1 := by omega
        rw [hstep, gcnv_update_random rs low high (n + 1) _ hh
            (show (n + 1) % (NOTES_PER_STEP / 2) = 0 from h5)]
        refine ⟨?_, ?_, ?_⟩ <;>
          · dsimp only
            rw [ih.2.2, hdiv]
      · have hdiv : (n + 1) / 5 = n / 5 := by omega
        rw [hstep, gcnv_noUpdate rs _ low high (n + 1) _ hh
            (show ¬ (n + 1) % (NOTES_PER_STEP / 2) = 0 from h5), hdiv]
        exact ⟨ih.2.1, ih.2.1, ih.2.2⟩

/-- Claim C8: in Random mode with a configured non-degenerate range, the
value at each note is a pure function of the fixed-seed PRNG stream and
the bounds alone — two runs with identical stream, bounds and length
agree bit for bit, whatever stale static counter each starts with — one
PRNG output is consumed per update boundary, every draw lies in the
inclusive range from low to high, and the residue map sending PRNG
outputs to that range is periodic, one-to-one on each period and onto the
range (the shallow counterpart of drawing uniformly from the range). -/
theorem random_mode_reproducible (rs : Nat → Nat) (low high : Int)
    (hlh : low ≤ high) (hh : 0 < high) :
    (∀ (L1 L2 : Int) (n : Nat),
        voicesAt rs VoicesMode.VOICES_RANDOM low high ⟨L1, 0⟩ n
          = voicesAt rs VoicesMode.VOICES_RANDOM low high ⟨L2, 0⟩ n)
    ∧ (∀ (L : Int) (n : Nat),
        voicesAt rs VoicesMode.VOICES_RANDOM low high ⟨L, 0⟩ n
          = randomDraw low high (rs (n / 5)))
    ∧ (∀ r : Nat, low ≤ randomDraw low high r ∧ randomDraw low high r ≤ high)
    ∧ (∀ r : Nat, randomDraw low high (r + (high - low + 1).toNat) = randomDraw low high r)
    ∧ (∀ v : Int, low ≤ v → v ≤ high → randomDraw low high ((v - low).toNat) = v)
    ∧ (∀ r1 r2 : Nat, r1 < (high - low + 1).toNat → r2 < (high - low + 1).toNat →
        randomDraw low high r1 = randomDraw low high r2 → r1 = r2) := by
  have hM : (0 : Int) < high - low + 1 := by omega
  refine ⟨?_, ?_, ?_, ?_, ?_, ?_⟩
  · intro L1 L2 n
    exact ((random_invariant rs low high L1 hh n).1).trans
      ((random_invariant rs low high L2 hh n).1).symm
  · intro L n
    exact (random_invariant rs low high L hh n).1
  · intro r
    unfold randomDraw
    have h1 := Int.emod_nonneg (r : Int) (by omega : high - low + 1 ≠ 0)
    have h2 := Int.emod_lt_of_pos (r : Int) hM
    omega
  · intro r
    unfold randomDraw
    have ht : (((high - low + 1).toNat : Nat) : Int) = high - low + 1 :=
      Int.toNat_of_nonneg (by omega)
    push_cast
    rw [ht, Int.add_emod, Int.emod_self, add_zero, Int.emod_emod_of_dvd _ dvd_rfl]
  · intro v hv1 hv2
    unfold randomDraw
    have ht : (((v - low).toNat : Nat) : Int) = v - low := Int.toNat_of_nonneg (by omega)
    rw [ht, Int.emod_eq_of_lt (by omega) (by omega)]
    omega
  · intro r1 r2 h1 h2 heq
    unfold randomDraw at heq
    have e1 : ((r1 : Nat) : Int) % (high - low + 1) = (r1 : Int) :=
      Int.emod_eq_of_lt (by omega) (by omega)
    have e2 : ((r2 : Nat) : Int) % (high - low + 1) = (r2 : Int) :=
      Int.emod_eq_of_lt (by omega) (by omega)
    rw [e1, e2] at heq
    omega

/-- Witness for C8 with bounds 2 and 6 and a concrete stream: note 11
lies in the third update window, drawing the stream's output 7, which
maps to 7 mod 5 + 2 = 4; the same value arises from a different stale
counter. -/
theorem random_mode_reproducible_witness :
    voicesAt (fun k => 3 * k + 1) VoicesMode.VOICES_RANDOM 2 6 ⟨99, 0⟩ 11
      = voicesAt (fun k => 3 * k + 1) VoicesMode.VOICES_RANDOM 2 6 ⟨0, 0⟩ 11
    ∧ voicesAt (fun k => 3 * k + 1) VoicesMode.VOICES_RANDOM 2 6 ⟨99, 0⟩ 11 = 4 := by
  have h := random_mode_reproducible (fun k => 3 * k + 1) 2 6 (by decide) (by decide)
  exact ⟨h.1 99 0 11, (h.2.1 99 11).trans (by decide)⟩

/-- Splitting a prefix of an event trace at a known k-th event. -/
lemma take_succ_of_get? {α : Type} (l : List α) (k : Nat) (e : α)
    (h : l.get? k = some e) : l.take (k + 1) = l.take k ++ [e] := by
  rw [List.get?_eq_getElem?] at h
  rw [List.take_succ, h]
  rfl

/-- A prefix beyond the end of an event trace stops growing. -/
lemma take_succ_of_none {α : Type} (l : List α) (k : Nat)
    (h : l.get? k = none) : l.take (k + 1) = l.take k := by
  rw [List.get?_eq_getElem?] at h
  rw [List.take_succ, h]
  simp

/-- Peeling the last event off a monitor run. -/
lemma monitorRun_snoc (init : Int) (a : List MonitorEvent) (e : MonitorEvent) :
    monitorRun init (a ++ [e]) = monitorStep (monitorRun init a) e := by
  simp [monitorRun, List.foldl_append]

/-- A disabled monitor neither announces nor re-enables, whatever the
event. -/
lemma monitorStep_disabled (st : MonitorState) (e : MonitorEvent)
    (h : st.enabled = false) :
    (monitorStep st e).notices = st.notices ∧ (monitorStep st e).enabled = false := by
  cases e with
  | poll size => simp [monitorStep, h]
  | stop => exact ⟨rfl, rfl⟩

/-- Claim C9: along any monitor trace, a poll emits a notification
exactly when the polled buffer size differs from the last-seen size (a
size seen again in a row emits nothing, each distinct transition emits
exactly one), and from the stop event on — polls ordered after stop are
those that could run after stopMonitorCallback's join returns — the
notification list never grows again. -/
theorem monitor_notifications_correct (initialSize : Int) (events : List MonitorEvent) :
    (∀ (k : Nat) (size : Int), events.get? k = some (MonitorEvent.poll size) →
      (monitorRun initialSize (events.take (k + 1))).notices
        = (monitorRun initialSize (events.take k)).notices
          ++ (if (monitorRun initialSize (events.take k)).enabled = true
                ∧ size ≠ (monitorRun initialSize (events.take k)).previousBufferSize
              then [size] else []))
    ∧ (∀ k : Nat, events.get? k = some MonitorEvent.stop →
        ∀ j : Nat, k ≤ j →
          (monitorRun initialSize (events.take j)).notices
            = (monitorRun initialSize (events.take k)).notices) := by
  constructor
  · intro k size hget
    rw [take_succ_of_get? events k _ hget, monitorRun_snoc]
    by_cases he : (monitorRun initialSize (events.take k)).enabled = true
    · by_cases hs : size ≠ (monitorRun initialSize (events.take k)).previousBufferSize
      · simp [monitorStep, he, hs]
      · simp [monitorStep, he, hs]
    · simp [monitorStep, he]
  · intro k hget j hkj
    have hstop : (monitorRun initialSize (events.take (k + 1))).notices
        = (monitorRun initialSize (events.take k)).notices
        ∧ (monitorRun initialSize (events.take (k + 1))).enabled = false := by
      rw [take_succ_of_get? events k _ hget, monitorRun_snoc]
      exact ⟨rfl, rfl⟩
    have main : ∀ m : Nat,
        (monitorRun initialSize (events.take (k + 1 + m))).notices
          = (monitorRun initialSize (events.take k)).notices
        ∧ (monitorRun initialSize (events.take (k + 1 + m))).enabled = false := by
      intro m
      induction m with
      | zero => exact hstop
      | succ m ih =>
          rw [show k + 1 + (m + 1) = (k + 1 + m) + 1 by omega]
          cases hg2 : events.get? (k + 1 + m) with
          | none =>
              rw [take_succ_of_none events _ hg2]
              exact ih
          | some e =>
              rw [take_succ_of_get? events _ _ hg2, monitorRun_snoc]
              have hd := monitorStep_disabled _ e ih.2
              exact ⟨hd.1.trans ih.1, hd.2⟩
    rcases Nat.eq_or_lt_of_le hkj with h | h
    · rw [h]
    · have hj : k + 1 + (j - (k + 1)) = j := by omega
      have := main (j - (k + 1))
      rw [hj] at this
      exact this.1

/-- Witness for C9: on a concrete trace the repeated size 192 and the
repeated 384 emit nothing, the transition to 384 emits one notification,
and the poll of 576 after stop emits nothing, leaving exactly one
notification. -/
theorem monitor_notifications_correct_witness :
    (monitorRun 192 [MonitorEvent.poll 192, MonitorEvent.poll 384, MonitorEvent.poll 384,
        MonitorEvent.stop, MonitorEvent.poll 576]).notices = [384] := by
  have h := monitor_notifications_correct 192
    [MonitorEvent.poll 192, MonitorEvent.poll 384, MonitorEvent.poll 384,
     MonitorEvent.stop, MonitorEvent.poll 576]
  have h2 := h.2 3 rfl 5 (by omega)
  rw [show ([MonitorEvent.poll 192, MonitorEvent.poll 384, MonitorEvent.poll 384,
      MonitorEvent.stop, MonitorEvent.poll 576] : List MonitorEvent)
    = ([MonitorEvent.poll 192, MonitorEvent.poll 384, MonitorEvent.poll 384,
      MonitorEvent.stop, MonitorEvent.poll 576] : List MonitorEvent).take 5 from rfl, h2]
  decide
